import Mathlib

/-!
Verification of the balance-aggregation service (hook_wallet_core).

Shallow embedding of the repository's core data model and operations:
arbitrary-precision balances are `Nat`, Rust `Result`/serde errors are
`Except`/`Option`, and each embedded function is translated from the
source file named in its doc comment.  A Rust operation that can panic is
modelled with an outer `Option` whose `none` case marks the panic.
-/

namespace HookWallet

/-! ## BigInteger serde helpers (crates/serde_serializers/src/biguint.rs) -/

/-- Digit character produced by `num_bigint`'s `to_string` / `to_str_radix`:
`'0'..'9'` then lowercase `'a'..` for digit values 10 and up. -/
def toRadixDigitChar (d : Nat) : Char :=
  if d < 10 then Char.ofNat (48 + d) else Char.ofNat (87 + d)

/-- `char::to_digit(radix)` as used by `from_str_radix`: decimal digits,
then letters of either case valued 10.., rejected when ≥ radix. -/
def charToDigit (radix : Nat) (c : Char) : Option Nat :=
  let v : Option Nat :=
    if '0' ≤ c ∧ c ≤ '9' then some (c.toNat - 48)
    else if 'a' ≤ c ∧ c ≤ 'z' then some (c.toNat - 97 + 10)
    else if 'A' ≤ c ∧ c ≤ 'Z' then some (c.toNat - 65 + 10)
    else none
  v.bind fun d => if d < radix then some d else none

/-- Little-endian digit expansion with explicit fuel, so that the kernel can
evaluate it on concrete numbers (`natDigitsLE_eq_digits` identifies it with
`Nat.digits`). -/
def digitsFuel (b : Nat) : Nat → Nat → List Nat
  | 0, _ => []
  | fuel + 1, n => if n = 0 then [] else n % b :: digitsFuel b fuel (n / b)

/-- Little-endian base-`b` digits of `n` (executable form of `Nat.digits`). -/
def natDigitsLE (b n : Nat) : List Nat :=
  digitsFuel b n n

/-- Big-endian digit list of `n` in base `b`, with `0` rendered as `[0]`,
exactly the digit sequence `num_bigint` prints (no leading zeros). -/
def toRadixDigits (b n : Nat) : List Nat :=
  if n = 0 then [0] else (natDigitsLE b n).reverse

/-- `num_bigint::BigUint::from_str_radix` on a char list: an optional
leading `'+'`, then at least one digit, every digit valid for the radix. -/
def parseRadixChars (radix : Nat) (l : List Char) : Option Nat :=
  let l := if l.head? = some '+' then l.tail else l
  if l.isEmpty then none
  else l.foldl (fun acc c => acc.bind fun a => (charToDigit radix c).map fun d => a * radix + d)
    (some 0)

/-- `serialize_biguint`: the decimal string `value.to_string()`. -/
def serialize_biguint (n : Nat) : String :=
  ⟨(toRadixDigits 10 n).map toRadixDigitChar⟩

/-- The bare lowercase hex rendering `value.to_str_radix(16)`. -/
def to_str_radix_16 (n : Nat) : String :=
  ⟨(toRadixDigits 16 n).map toRadixDigitChar⟩

/-- `serialize_biguint_to_hex_str`: `format!("0x{}", value.to_str_radix(16))`. -/
def serialize_biguint_to_hex_str (n : Nat) : String :=
  "0x" ++ to_str_radix_16 n

/-- The decimal decode `s.parse::<BigUint>()` used by
`deserialize_biguint_from_str` (num's `FromStr` is `from_str_radix(s, 10)`);
`none` is the parse error. -/
def parse_biguint_decimal (s : String) : Option Nat :=
  parseRadixChars 10 s.data

/-- UTF-8 encoding of one scalar value (used to count the byte length that
Rust's byte-indexed slicing `&s[2..]` checks against). -/
def charUtf8 (c : Char) : List Nat :=
  let v := c.toNat
  if v < 128 then [v]
  else if v < 2048 then [192 + v / 64, 128 + v % 64]
  else if v < 65536 then [224 + v / 4096, 128 + v / 64 % 64, 128 + v % 64]
  else [240 + v / 262144, 128 + v / 4096 % 64, 128 + v / 64 % 64, 128 + v % 64]

/-- The UTF-8 bytes of a string (Rust's `String` representation). -/
def utf8Bytes (s : String) : List Nat :=
  s.data.flatMap charUtf8

/-- Rust `s.len()`: the UTF-8 byte length. -/
def utf8ByteLen (s : String) : Nat :=
  (utf8Bytes s).length

/-- `deserialize_biguint_from_hex_str`: `BigUint::from_str_radix(&s[2..], 16)`.
The outer `Option`'s `none` marks the panic of the byte slice `&s[2..]` when
the string is shorter than two bytes; the inner `Option`'s `none` is the
decode error.  (When the first two characters are ASCII — every input the
claims exercise — dropping two characters is dropping two bytes; the
byte-slice panic on a multi-byte character boundary is not modelled.) -/
def deserialize_biguint_from_hex_str (s : String) : Option (Option Nat) :=
  if utf8ByteLen s < 2 then none
  else some (parseRadixChars 16 (s.data.drop 2))

/-- `deserialize_biguint_from_option_hex_str`: `None` maps to `Ok(None)`,
`Some(s)` goes through the same `&s[2..]` slice (outer `none` = panic,
middle `none` = decode error). -/
def deserialize_biguint_from_option_hex_str (o : Option String) : Option (Option (Option Nat)) :=
  match o with
  | none => some (some none)
  | some s =>
    match deserialize_biguint_from_hex_str s with
    | none => none
    | some none => some none
    | some (some n) => some (some (some n))

/-- `s.strip_prefix("0x").unwrap_or(s)` on the char list. -/
def strip0x (l : List Char) : List Char :=
  match l with
  | c0 :: c1 :: rest => if c0 = '0' ∧ c1 = 'x' then rest else c0 :: c1 :: rest
  | _ => l

/-- `biguint_from_hex_str`: strip an optional `0x` prefix, then
`BigUint::from_str_radix(hex_part, 16)`; `none` is the error case. -/
def biguint_from_hex_str (s : String) : Option Nat :=
  parseRadixChars 16 (strip0x s.data)

/-! ## HTTP client (crates/core_client): errors, content types, body encoding -/

/-- `ClientError` (crates/core_client/src/types.rs). -/
inductive ClientError where
  | Network (msg : String)
  | Timeout
  | Http (status : Nat) (len : Nat)
  | Serialization (msg : String)
deriving DecidableEq

/-- `ContentType` (crates/core_client/src/content_type.rs). -/
inductive ContentType where
  | ApplicationJson
  | TextPlain
  | ApplicationFormUrlEncoded
  | ApplicationXBinary
deriving DecidableEq

/-- `ContentType::as_str`. -/
def ContentType.as_str : ContentType → String
  | .ApplicationJson => "application/json"
  | .TextPlain => "text/plain"
  | .ApplicationFormUrlEncoded => "application/x-www-form-urlencoded"
  | .ApplicationXBinary => "application/x-binary"

/-- `ContentType::from_str` (`.ok()` form: `none` for an unknown type). -/
def ContentType.fromStr (s : String) : Option ContentType :=
  if s = "application/json" then some .ApplicationJson
  else if s = "text/plain" then some .TextPlain
  else if s = "application/x-www-form-urlencoded" then some .ApplicationFormUrlEncoded
  else if s = "application/x-binary" then some .ApplicationXBinary
  else none

/-- A serde_json `Value` as far as the transport inspects it. -/
inductive Json where
  | null
  | bool (b : Bool)
  | num (n : Int)
  | str (s : String)
  | arr (xs : List Json)
  | obj (fields : List (String × Json))

/-- The `serde_json::Value::String` test the text/binary branches make. -/
def Json.asString : Json → Option String
  | .str s => some s
  | _ => none

mutual

/-- Compact JSON rendering standing for `serde_json::to_vec` in the default
(`application/json`) branch; no claim depends on the exact text. -/
def Json.compact : Json → String
  | .null => "null"
  | .bool true => "true"
  | .bool false => "false"
  | .num n => toString n
  | .str s => "\x22" ++ s ++ "\x22"
  | .arr xs => "[" ++ Json.compactSeq xs ++ "]"
  | .obj fs => "\x7b" ++ Json.compactFields fs ++ "\x7d"

/-- Comma-separated renderings of the elements of a JSON array. -/
def Json.compactSeq : List Json → String
  | [] => ""
  | [x] => Json.compact x
  | x :: y :: rest => Json.compact x ++ "," ++ Json.compactSeq (y :: rest)

/-- Comma-separated renderings of the fields of a JSON object. -/
def Json.compactFields : List (String × Json) → String
  | [] => ""
  | [f] => "\x22" ++ f.1 ++ "\x22:" ++ Json.compact f.2
  | f :: g :: rest => "\x22" ++ f.1 ++ "\x22:" ++ Json.compact f.2 ++ ","
      ++ Json.compactFields (g :: rest)

end

/-- One hex digit for `hex::decode` (0-9, a-f, A-F). -/
def hexNibble (c : Char) : Option Nat :=
  if '0' ≤ c ∧ c ≤ '9' then some (c.toNat - 48)
  else if 'a' ≤ c ∧ c ≤ 'f' then some (c.toNat - 97 + 10)
  else if 'A' ≤ c ∧ c ≤ 'F' then some (c.toNat - 65 + 10)
  else none

/-- `hex::decode` on the char list: even length, every char a hex digit,
two chars per output byte. -/
def hexDecodeChars : List Char → Option (List Nat)
  | [] => some []
  | [_] => none
  | c1 :: c2 :: rest =>
    match hexNibble c1, hexNibble c2, hexDecodeChars rest with
    | some h, some l, some bs => some ((h * 16 + l) :: bs)
    | _, _, _ => none

/-- `hex::decode(&s)`; `none` is the `FromHexError` case. -/
def hex_decode (s : String) : Option (List Nat) :=
  hexDecodeChars s.data

/-- First value for a key in a header list (the `HashMap::get` of the
Rust code; header maps hold each key once). -/
def headerLookup (headers : List (String × String)) (key : String) : Option String :=
  (headers.find? fun h => h.1 = key).map (·.2)

/-- The content type `ReqwestClient::post` resolves: the provided headers, or
the default `Content-Type: application/json` map when none were given
(crates/core_client/src/reqwest_client.rs). -/
def reqwestEffectiveContentType (headers? : Option (List (String × String))) :
    Option ContentType :=
  let headers := headers?.getD [("Content-Type", "application/json")]
  (headerLookup headers "Content-Type").bind ContentType.fromStr

/-- The request body `ReqwestClient::post` builds before anything is sent
(reqwest_client.rs lines 228-249): text types require a JSON string body,
`application/x-binary` additionally hex-decodes it; an `Except.error` means
the call fails with that error and no HTTP request is issued. -/
def reqwest_post_body (headers? : Option (List (String × String))) (body : Json) :
    Except ClientError (List Nat) :=
  match reqwestEffectiveContentType headers? with
  | some .TextPlain | some .ApplicationFormUrlEncoded | some .ApplicationXBinary =>
    match body.asString with
    | some s =>
      if reqwestEffectiveContentType headers? = some .ApplicationXBinary then
        match hex_decode s with
        | some bytes => .ok bytes
        | none => .error (.Serialization "Failed to decode hex string")
      else .ok (utf8Bytes s)
    | none => .error (.Serialization "Expected string body for text/plain or binary content-type")
  | _ => .ok (utf8Bytes body.compact)

/-- `HttpMethod` (crates/core_jsonrpc/src/rpc.rs). -/
inductive HttpMethod where
  | Get | Post | Put | Delete | Head | Options | Patch
deriving DecidableEq

/-- `Target` (crates/core_jsonrpc/src/rpc.rs): the request descriptor handed
to the `RpcProvider`. -/
structure Target where
  url : String
  method : HttpMethod
  headers : Option (List (String × String))
  body : Option (List Nat)

/-- Header map `RpcClient::post` sends: `Content-Type: application/json`
overridden by any provided entries (`HashMap::extend`). -/
def rpcMergedHeaders (headers? : Option (List (String × String))) :
    List (String × String) :=
  match headers? with
  | none => [("Content-Type", "application/json")]
  | some provided =>
    match headerLookup provided "Content-Type" with
    | some _ => provided
    | none => ("Content-Type", "application/json") :: provided

/-- The content type `RpcClient::post` resolves from the merged headers. -/
def rpcEffectiveContentType (headers? : Option (List (String × String))) :
    Option ContentType :=
  (headerLookup (rpcMergedHeaders headers?) "Content-Type").bind ContentType.fromStr

/-- `str::trim_end_matches('/')`: every trailing `'/'` removed. -/
def trimEndSlashes (s : String) : String :=
  ⟨(s.data.reverse.dropWhile (fun c => c = '/')).reverse⟩

/-- `RpcClient::build_url` (rpc.rs lines 114-117):
`format!("{}{}", self.base_url.trim_end_matches('/'), path)`. -/
def rpc_build_url (base_url path : String) : String :=
  trimEndSlashes base_url ++ path

/-- `ReqwestClient::build_url` (reqwest_client.rs lines 126-128): the same
expression over its own `base_url`. -/
def reqwest_build_url (base_url path : String) : String :=
  trimEndSlashes base_url ++ path

/-- The `Target` that `RpcClient::post` (rpc.rs lines 152-185) hands to the
provider; `.error` means the call fails before the provider is invoked. -/
def rpc_post_target (base_url path : String) (headers? : Option (List (String × String)))
    (body : Json) : Except ClientError Target :=
  let url := rpc_build_url base_url path
  let request_headers := rpcMergedHeaders headers?
  let data : Except ClientError (List Nat) :=
    match rpcEffectiveContentType headers? with
    | some .TextPlain | some .ApplicationFormUrlEncoded =>
      match body.asString with
      | some s => .ok (utf8Bytes s)
      | none => .error (.Serialization "Expected string body for text/plain content-type")
    | some .ApplicationXBinary =>
      match body.asString with
      | some s =>
        match hex_decode s with
        | some bytes => .ok bytes
        | none => .error (.Serialization "Failed to decode hex string")
      | none => .error (.Serialization "Expected hex string body for binary content-type")
    | _ => .ok (utf8Bytes body.compact)
  match data with
  | .error e => .error e
  | .ok bytes => .ok ⟨url, .Post, some request_headers, some bytes⟩

/-! ## Retry with exponential backoff (crates/core_client/src/retry.rs) -/

/-- `default_should_retry`: a match on the lowercased `Display` string.
Errors are modelled by their displayed string. -/
def default_should_retry (error : String) : Bool :=
  let e : String := ⟨error.data.map Char.toLower⟩
  e.containsSubstr "429" || e.containsSubstr "502" || e.containsSubstr "503" ||
    e.containsSubstr "504" || e.containsSubstr "too many requests" ||
    e.containsSubstr "throttled"

/-- The sleep before the retry that brings `attempt` to `n`:
`Duration::from_secs(2_u64.saturating_pow(attempt).min(1800))`, in seconds. -/
def backoff_delay (n : Nat) : Nat :=
  min (min (2 ^ n) (2 ^ 64 - 1)) 1800

/-- What one run of `retry` did: the returned `Result`, how many times the
operation closure was invoked, and the sleeps taken between invocations. -/
structure RetryTrace (T : Type) where
  result : Except String T
  calls : Nat
  delays : List Nat

/-- The `retry` loop (retry.rs lines 89-125) with `attempt < max_retries`
carried as the remaining budget `r = max_retries - attempt`; the operation is
a function of the current `attempt` value (= how many calls happened before).
Structure: return on `Ok`; on `Err`, retry after `backoff_delay` while the
predicate holds and budget remains, else return the error. -/
def retryGo {T : Type} (op : Nat → Except String T) (pred : String → Bool) :
    Nat → Nat → RetryTrace T
  | 0, attempt =>
    match op attempt with
    | .ok v => ⟨.ok v, 1, []⟩
    | .error e => ⟨.error e, 1, []⟩
  | r + 1, attempt =>
    match op attempt with
    | .ok v => ⟨.ok v, 1, []⟩
    | .error e =>
      if pred e then
        let t := retryGo op pred r (attempt + 1)
        ⟨t.result, t.calls + 1, backoff_delay (attempt + 1) :: t.delays⟩
      else ⟨.error e, 1, []⟩

/-- `retry(operation, max_retries, should_retry_fn)`: start at `attempt = 0`
with the default predicate when none is supplied. -/
def retry {T : Type} (op : Nat → Except String T) (max_retries : Nat)
    (pred? : Option (String → Bool)) : RetryTrace T :=
  retryGo op (pred?.getD default_should_retry) max_retries 0

/-! ## JSON-RPC 2.0 result types (crates/core_jsonrpc/src/types.rs) -/

/-- `JsonRpcError`. -/
structure JsonRpcError where
  code : Int
  message : String
deriving DecidableEq

/-- `JsonRpcResponse<T>`. -/
structure JsonRpcResponse (T : Type) where
  id : Option Nat
  result : T

/-- `JsonRpcErrorResponse`. -/
structure JsonRpcErrorResponse where
  id : Option Nat
  error : JsonRpcError
deriving DecidableEq

/-- `JsonRpcResult<T>`: the untagged success/error union. -/
inductive JsonRpcResult (T : Type) where
  | Value (response : JsonRpcResponse T)
  | Error (err : JsonRpcErrorResponse)

/-- `JsonRpcResults::extract` (types.rs): push every success in order,
log and drop every error slot. -/
def extract {T : Type} (results : List (JsonRpcResult T)) : List T :=
  results.filterMap fun r =>
    match r with
    | .Value response => some response.result
    | .Error _ => none

/-! ## Chain and provider registry -/

/-- `Chain` (crates/primitives/src/chain.rs, plus the `Solana` member the
Solana provider dispatches on). -/
inductive Chain where
  | Ethereum
  | SmartChain
  | Arbitrum
  | Polygon
  | Solana
deriving DecidableEq

/-- The strum lowercase tag `chain.as_ref()`. -/
def Chain.as_ref : Chain → String
  | .Ethereum => "ethereum"
  | .SmartChain => "smartchain"
  | .Arbitrum => "arbitrum"
  | .Polygon => "polygon"
  | .Solana => "solana"

/-- A registered capability instance as `ChainProviders` sees it: its
`get_chain()` answer plus an identity tag distinguishing the boxed trait
objects. -/
structure ChainProvider where
  chain : Chain
  tag : Nat
deriving DecidableEq

/-- `ChainProviders::get_provider` (crates/settings_chain/src/chain_providers.rs
lines 25-47): linear scan for the first provider whose chain matches; absent
chains produce the boxed string error. -/
def get_provider (providers : List ChainProvider) (chain : Chain) :
    Except String ChainProvider :=
  match providers.find? fun p => p.chain = chain with
  | some p => .ok p
  | none => .error ("Provider for chain " ++ chain.as_ref ++ " not found")

/-- `ApiError` (apps/api/src/responders.rs). -/
inductive ApiError where
  | BadRequest (msg : String)
  | NotFound (msg : String)
  | InternalServerError (msg : String)
deriving DecidableEq

/-- `impl From<Box<dyn Error + Send + Sync>> for ApiError` (responders.rs
lines 34-38): every boxed error becomes an `InternalServerError`. -/
def apiError_from_boxed (msg : String) : ApiError :=
  .InternalServerError ("Service error: " ++ msg)

/-- The HTTP status `ApiError::respond_to` sets (responders.rs lines 13-31). -/
def ApiError.status : ApiError → Nat
  | .BadRequest _ => 400
  | .NotFound _ => 404
  | .InternalServerError _ => 500

/-- Modelled from the spec: the `apps/api/src/chain/balance.rs` route handlers
are absent from `src/`; per the data-flow of §2 and §6 they call the registry
operation for the parsed chain and render a failure through the facade's
boxed-error conversion (`responders.rs`, the facade's only such conversion —
its `NotFound` constructor is referenced nowhere in the source).  The result
is the HTTP status of the error response when the chain has no provider, and
`none` when a provider exists and the request proceeds to it. -/
def facade_balance_error_status (providers : List ChainProvider) (chain : Chain) :
    Option Nat :=
  match get_provider providers chain with
  | .error msg => some (apiError_from_boxed msg).status
  | .ok _ => none

/-! ## Uniform balance model (crates/primitives/src/asset_balance.rs) -/

/-- Modelled from the spec: `AssetId` (`crates/primitives/src/asset_id.rs` is
absent from `src/`) is `(chain, optional token_id)`, token_id absent for the
native coin. -/
structure AssetId where
  chain : Chain
  token_id : Option String
deriving DecidableEq

/-- Modelled from the spec: `AssetId::from_chain` is the native-coin id of
the chain. -/
def AssetId.from_chain (chain : Chain) : AssetId :=
  ⟨chain, none⟩

/-- `BalanceMetadata` (asset_balance.rs): vote and resource counters. -/
structure BalanceMetadata where
  votes : Nat
  energy_available : Nat
  energy_total : Nat
  bandwidth_available : Nat
  bandwidth_total : Nat
deriving DecidableEq

/-- `Balance` (asset_balance.rs): the eight semantic slots plus optional
metadata, every slot an arbitrary-precision non-negative integer. -/
structure Balance where
  available : Nat
  frozen : Nat
  locked : Nat
  staked : Nat
  pending : Nat
  rewards : Nat
  reserved : Nat
  withdrawable : Nat
  metadata : Option BalanceMetadata
deriving DecidableEq

/-- `Balance::coin_balance`. -/
def Balance.coin_balance (available : Nat) : Balance :=
  ⟨available, 0, 0, 0, 0, 0, 0, 0, none⟩

/-- `Balance::zero`. -/
def Balance.zero : Balance :=
  Balance.coin_balance 0

/-- `Balance::with_reserved`. -/
def Balance.with_reserved (available reserved : Nat) : Balance :=
  ⟨available, 0, 0, 0, 0, 0, reserved, 0, none⟩

/-- `Balance::stake_balance_with_metadata`. -/
def Balance.stake_balance_with_metadata (staked pending : Nat) (rewards : Option Nat)
    (metadata : Option BalanceMetadata) : Balance :=
  ⟨0, 0, 0, staked, pending, rewards.getD 0, 0, 0, metadata⟩

/-- `Balance::stake_balance`. -/
def Balance.stake_balance (staked pending : Nat) (rewards : Option Nat) : Balance :=
  Balance.stake_balance_with_metadata staked pending rewards none

/-- `AssetBalance` (asset_balance.rs). -/
structure AssetBalance where
  asset_id : AssetId
  balance : Balance
  is_active : Bool
deriving DecidableEq

/-- `AssetBalance::new`. -/
def AssetBalance.new (asset_id : AssetId) (balance : Nat) : AssetBalance :=
  ⟨asset_id, Balance.coin_balance balance, true⟩

/-- `AssetBalance::new_zero_balance`. -/
def AssetBalance.new_zero_balance (asset_id : AssetId) : AssetBalance :=
  AssetBalance.new asset_id 0

/-- `AssetBalance::new_balance`. -/
def AssetBalance.new_balance (asset_id : AssetId) (balance : Balance) : AssetBalance :=
  ⟨asset_id, balance, true⟩

/-- `AssetBalance::new_with_active`. -/
def AssetBalance.new_with_active (asset_id : AssetId) (balance : Balance)
    (is_active : Bool) : AssetBalance :=
  ⟨asset_id, balance, is_active⟩

/-- `AssetBalance::new_staking`. -/
def AssetBalance.new_staking (asset_id : AssetId) (staked pending rewards : Nat) :
    AssetBalance :=
  ⟨asset_id, Balance.stake_balance staked pending (some rewards), true⟩

/-- `AssetBalance::new_staking_with_metadata`. -/
def AssetBalance.new_staking_with_metadata (asset_id : AssetId)
    (staked pending rewards : Nat) (metadata : BalanceMetadata) : AssetBalance :=
  ⟨asset_id, Balance.stake_balance_with_metadata staked pending (some rewards)
    (some metadata), true⟩

/-! ## Solana token balances (crates/core_solana) -/

/-- Modelled from the spec: the parsed token-account info of the Solana
models (`core_solana/src/models/token.rs` is absent from `src/`); `amount`
stands for `account.data.parsed.info.tokenAmount.amount`. -/
structure TokenAccountInfo where
  amount : Nat
deriving DecidableEq

/-- Modelled from the spec: `ValueResult<T>` is the Solana `{context, value}`
envelope; only `value` is consumed by the balance paths. -/
structure ValueResult (T : Type) where
  value : T

/-- Modelled from the spec: `map_token_accounts`
(`core_solana/src/provider/balances_mapper.rs` is absent from `src/`): for
one requested mint, sum `tokenAmount.amount` across the returned parsed
accounts and emit one `AssetBalance` for that mint. -/
def map_token_accounts (token_accounts : ValueResult (List TokenAccountInfo))
    (token_id : String) : List AssetBalance :=
  [AssetBalance.new ⟨Chain.Solana, some token_id⟩
    ((token_accounts.value.map TokenAccountInfo.amount).sum)]

/-- `SolanaClient::get_token_accounts` (core_solana/src/rpc/client.rs lines
97-109) followed by `get_balance_tokens` (core_solana/src/provider/balances.rs
lines 17-26): the batched call's per-position outcomes are `results`; the
successes are `extract`ed, zipped with `token_ids`, and flat-mapped through
`map_token_accounts`. -/
def solana_get_balance_tokens (token_ids : List String)
    (results : List (JsonRpcResult (ValueResult (List TokenAccountInfo)))) :
    List AssetBalance :=
  ((extract results).zip token_ids).flatMap fun p => map_token_accounts p.1 p.2

/-! ## Ethereum (Everstake) staking derivation (crates/core_evm) -/

/-- Modelled from the spec: `DelegationState`
(`crates/primitives/src/delegation.rs` is absent from `src/`); §3 lists
`{Active, Activating, Deactivating, AwaitingWithdrawal, Pending,
Undelegating, …}`. -/
inductive DelegationState where
  | Active
  | Activating
  | Deactivating
  | AwaitingWithdrawal
  | Pending
  | Undelegating
deriving DecidableEq

/-- Modelled from the spec: `DelegationBase` with the fields the staking
derivation reads and writes (balance, rewards, state). -/
structure DelegationBase where
  balance : Nat
  rewards : Nat
  state : DelegationState
deriving DecidableEq

/-- Modelled from the spec: `map_balance_to_delegation` (the
`crate::everstake` module is absent from `src/`) builds one delegation from
a balance, a rewards amount and a state. -/
def map_balance_to_delegation (balance rewards : Nat) (state : DelegationState) :
    DelegationBase :=
  ⟨balance, rewards, state⟩

/-- Modelled from the spec: one entry of the Everstake `withdraw_request`
(`crate::everstake` is absent from `src/`): an amount, its unlock epoch, and
the epoch current when the pool state was read. -/
structure EverstakeWithdrawEntry where
  amount : Nat
  unlock_epoch : Nat
  current_epoch : Nat
deriving DecidableEq

/-- Modelled from the spec: `map_withdraw_request_to_delegations`
(`crate::everstake` is absent from `src/`): each entry maps to a delegation
whose state is `AwaitingWithdrawal` if its unlock epoch ≥ the current epoch,
otherwise `Deactivating`. -/
def map_withdraw_request_to_delegations (entries : List EverstakeWithdrawEntry) :
    List DelegationBase :=
  entries.map fun e =>
    ⟨e.amount, 0,
      if e.current_epoch ≤ e.unlock_epoch then .AwaitingWithdrawal else .Deactivating⟩

/-- Modelled from the spec: the Everstake per-address pool account state
(`crate::everstake` is absent from `src/`), the tuple §4.E names:
`(deposited_balance, restaked_reward, pending_balance,
pending_deposited_balance, withdraw_request)`. -/
structure EverstakeAccountState where
  deposited_balance : Nat
  restaked_reward : Nat
  pending_balance : Nat
  pending_deposited_balance : Nat
  withdraw_request : List EverstakeWithdrawEntry

/-- `get_ethereum_delegations` (core_evm/src/provider/staking_ethereum.rs
lines 36-55), as a function of the fetched account state: an `Active`
delegation when `deposited_balance > 0`, an `Activating` one when
`pending_balance + pending_deposited_balance > 0`, then the withdraw-request
delegations. -/
def get_ethereum_delegations (state : EverstakeAccountState) : List DelegationBase :=
  (if 0 < state.deposited_balance then
    [map_balance_to_delegation state.deposited_balance state.restaked_reward .Active]
  else [])
  ++ (if 0 < state.pending_balance + state.pending_deposited_balance then
    [map_balance_to_delegation (state.pending_balance + state.pending_deposited_balance)
      0 .Activating]
  else [])
  ++ map_withdraw_request_to_delegations state.withdraw_request

/-- The accumulation loop of `get_ethereum_staking_balance`
(staking_ethereum.rs lines 60-76): a left fold collecting
`(staked, rewards, pending)`. -/
def stake_fold (delegations : List DelegationBase) : Nat × Nat × Nat :=
  delegations.foldl
    (fun acc d =>
      match d.state with
      | .Active => (acc.1 + d.balance, acc.2.1 + d.rewards, acc.2.2)
      | .Activating | .Deactivating | .AwaitingWithdrawal =>
        (acc.1, acc.2.1, acc.2.2 + d.balance)
      | _ => acc)
    (0, 0, 0)

/-- The `Balance` the fold produces:
`Balance::stake_balance(staked, pending, Some(rewards))`. -/
def fold_delegations (delegations : List DelegationBase) : Balance :=
  let f := stake_fold delegations
  Balance.stake_balance f.1 f.2.2 (some f.2.1)

/-- `get_ethereum_staking_balance` (staking_ethereum.rs lines 57-79) as a
function of the fetched account state: fold the derived delegations and wrap
the result — always `Some`.  (`get_balance_staking` in
core_evm/src/provider/balances.rs routes `EVMChain::Ethereum` here.) -/
def get_ethereum_staking_balance (state : EverstakeAccountState) : Option AssetBalance :=
  some (AssetBalance.new_balance (AssetId.from_chain .Ethereum)
    (fold_delegations (get_ethereum_delegations state)))

/-! ## Lemmas: digit strings -/

theorem digitsFuel_eq_digits (b : Nat) (hb : 2 ≤ b) :
    ∀ fuel n, n ≤ fuel → digitsFuel b fuel n = Nat.digits b n := by
  intro fuel
  induction fuel with
  | zero =>
    intro n hn
    interval_cases n
    simp [digitsFuel]
  | succ f ih =>
    intro n hn
    by_cases h0 : n = 0
    · simp [digitsFuel, h0]
    · have hdiv : n / b < n := Nat.div_lt_self (Nat.pos_of_ne_zero h0) hb
      rw [digitsFuel, if_neg h0, ih (n / b) (by omega),
        Nat.digits_def' (by omega : 1 < b) (Nat.pos_of_ne_zero h0)]

theorem natDigitsLE_eq_digits (b n : Nat) (hb : 2 ≤ b) :
    natDigitsLE b n = Nat.digits b n :=
  digitsFuel_eq_digits b hb n n le_rfl

theorem toRadixDigits_ne_nil (b n : Nat) (hb : 2 ≤ b) : toRadixDigits b n ≠ [] := by
  unfold toRadixDigits
  split
  · simp
  · next h =>
    rw [natDigitsLE_eq_digits b n hb]
    simpa using Nat.digits_ne_nil_iff_ne_zero.mpr h

theorem toRadixDigits_lt (b n : Nat) (hb : 2 ≤ b) :
    ∀ d ∈ toRadixDigits b n, d < b := by
  intro d hd
  unfold toRadixDigits at hd
  split at hd
  · simp at hd
    omega
  · rw [natDigitsLE_eq_digits b n hb] at hd
    exact Nat.digits_lt_base (by omega) (List.mem_reverse.mp hd)

theorem ofDigits_toRadixDigits (b n : Nat) (hb : 2 ≤ b) :
    Nat.ofDigits b (toRadixDigits b n).reverse = n := by
  unfold toRadixDigits
  split
  · next h => simp [Nat.ofDigits_singleton, h]
  · rw [natDigitsLE_eq_digits b n hb, List.reverse_reverse, Nat.ofDigits_digits]

theorem charToDigit_digitChar_ten (d : Nat) (hd : d < 10) :
    charToDigit 10 (toRadixDigitChar d) = some d := by
  interval_cases d <;> decide

theorem charToDigit_digitChar_sixteen (d : Nat) (hd : d < 16) :
    charToDigit 16 (toRadixDigitChar d) = some d := by
  interval_cases d <;> decide

theorem digitChar_ne_plus (d : Nat) (hd : d < 16) : toRadixDigitChar d ≠ '+' := by
  interval_cases d <;> decide

theorem digitChar_ne_x (d : Nat) (hd : d < 16) : toRadixDigitChar d ≠ 'x' := by
  interval_cases d <;> decide

theorem parse_foldl (radix : Nat) (ds : List Nat)
    (h : ∀ d ∈ ds, charToDigit radix (toRadixDigitChar d) = some d) :
    ∀ a : Nat,
      (ds.map toRadixDigitChar).foldl
        (fun acc c => acc.bind fun a => (charToDigit radix c).map fun d => a * radix + d)
        (some a)
      = some (ds.foldl (fun x d => x * radix + d) a) := by
  induction ds with
  | nil => intro a; simp
  | cons d ds ih =>
    intro a
    have hd := h d (List.mem_cons_self d ds)
    simp only [List.map_cons, List.foldl_cons, hd]
    exact ih (fun x hx => h x (List.mem_cons_of_mem d hx)) (a * radix + d)

theorem foldl_eq_ofDigits (radix : Nat) (ds : List Nat) :
    ∀ a : Nat,
      ds.foldl (fun x d => x * radix + d) a
      = a * radix ^ ds.length + Nat.ofDigits radix ds.reverse := by
  induction ds with
  | nil => intro a; simp [Nat.ofDigits]
  | cons d ds ih =>
    intro a
    rw [List.foldl_cons, ih (a * radix + d), List.reverse_cons, Nat.ofDigits_append]
    simp only [List.length_cons, List.length_reverse, Nat.ofDigits_singleton]
    ring

theorem parseRadixChars_cons (radix : Nat) (c : Char) (cs : List Char) (hc : c ≠ '+') :
    parseRadixChars radix (c :: cs)
    = (c :: cs).foldl
        (fun acc ch => acc.bind fun a => (charToDigit radix ch).map fun d => a * radix + d)
        (some 0) := by
  simp [parseRadixChars, hc]

theorem parseRadixChars_encode (radix n : Nat) (hr : radix = 10 ∨ radix = 16) :
    parseRadixChars radix ((toRadixDigits radix n).map toRadixDigitChar) = some n := by
  have hb : 2 ≤ radix := by rcases hr with h | h <;> omega
  have hlt : ∀ d ∈ toRadixDigits radix n, d < radix := toRadixDigits_lt radix n hb
  have hlt16 : ∀ d ∈ toRadixDigits radix n, d < 16 := by
    intro d hd
    have := hlt d hd
    rcases hr with h | h <;> omega
  have hctd : ∀ d ∈ toRadixDigits radix n,
      charToDigit radix (toRadixDigitChar d) = some d := by
    intro d hd
    rcases hr with h | h
    · exact h ▸ charToDigit_digitChar_ten d (h ▸ hlt d hd)
    · exact h ▸ charToDigit_digitChar_sixteen d (h ▸ hlt d hd)
  obtain ⟨d0, ds, hds⟩ := List.exists_cons_of_ne_nil (toRadixDigits_ne_nil radix n hb)
  have hplus : toRadixDigitChar d0 ≠ '+' :=
    digitChar_ne_plus d0 (hlt16 d0 (by rw [hds]; exact List.mem_cons_self d0 ds))
  rw [hds, List.map_cons, parseRadixChars_cons radix _ _ hplus, ← List.map_cons, ← hds,
    parse_foldl radix (toRadixDigits radix n) hctd 0, foldl_eq_ofDigits,
    ofDigits_toRadixDigits radix n hb]
  simp

theorem strip0x_of_digitChars (ds : List Nat) (h16 : ∀ d ∈ ds, d < 16) :
    strip0x (ds.map toRadixDigitChar) = ds.map toRadixDigitChar := by
  match ds with
  | [] => rfl
  | [d] => rfl
  | d0 :: d1 :: rest =>
    have hx : toRadixDigitChar d1 ≠ 'x' :=
      digitChar_ne_x d1 (h16 d1 (List.mem_cons_of_mem d0 (List.mem_cons_self d1 rest)))
    simp only [List.map_cons, strip0x]
    rw [if_neg fun hand => hx hand.2]

/-- Claim C4: for every non-negative arbitrary-precision integer `n`, decoding
the decimal-string encoding of `n` yields `n`, decoding the `0x`-hex-string
encoding of `n` yields `n`, and the hex decoder `biguint_from_hex_str` accepts
both the `0x`-prefixed and the bare hex form of `n` and returns `n` for both. -/
theorem biguint_encode_decode_roundtrip (n : Nat) :
    parse_biguint_decimal (serialize_biguint n) = some n ∧
    deserialize_biguint_from_hex_str (serialize_biguint_to_hex_str n) = some (some n) ∧
    biguint_from_hex_str (serialize_biguint_to_hex_str n) = some n ∧
    biguint_from_hex_str (to_str_radix_16 n) = some n := by
  have h10 := parseRadixChars_encode 10 n (Or.inl rfl)
  have h16 := parseRadixChars_encode 16 n (Or.inr rfl)
  have hlt : ∀ d ∈ toRadixDigits 16 n, d < 16 := toRadixDigits_lt 16 n (by omega)
  refine ⟨h10, ?_, ?_, ?_⟩
  · show deserialize_biguint_from_hex_str ("0x" ++ to_str_radix_16 n) = some (some n)
    have hdata : ("0x" ++ to_str_radix_16 n).data
        = '0' :: 'x' :: (toRadixDigits 16 n).map toRadixDigitChar := rfl
    unfold deserialize_biguint_from_hex_str utf8ByteLen utf8Bytes
    rw [hdata]
    rw [if_neg (by simp [charUtf8])]
    exact congrArg some h16
  · show biguint_from_hex_str ("0x" ++ to_str_radix_16 n) = some n
    unfold biguint_from_hex_str
    have hdata : ("0x" ++ to_str_radix_16 n).data
        = '0' :: 'x' :: (toRadixDigits 16 n).map toRadixDigitChar := rfl
    rw [hdata]
    simpa [strip0x] using h16
  · show biguint_from_hex_str (to_str_radix_16 n) = some n
    unfold biguint_from_hex_str
    have hdata : (to_str_radix_16 n).data = (toRadixDigits 16 n).map toRadixDigitChar := rfl
    rw [hdata, strip0x_of_digitChars _ hlt]
    exact h16

/-- Claim C8 (evidence): the serde hex decoders evaluate the byte slice
`&s[2..]`, which panics (modelled as the outer `none`) on the empty string and
on one-character strings instead of producing a decode error; the sibling
decoders `biguint_from_hex_str` and the decimal parse return an error value on
the same inputs, as the spec requires of all of them. -/
theorem hex_deserializer_short_input_panics :
    deserialize_biguint_from_hex_str "" = none ∧
    deserialize_biguint_from_hex_str "a" = none ∧
    deserialize_biguint_from_option_hex_str (some "") = none ∧
    biguint_from_hex_str "" = none ∧
    parse_biguint_decimal "" = none := by
  decide

/-- Claim C9: every `AssetBalance` constructor on the balance paths sets
`is_active = true`; only `new_with_active` passes an explicit flag through,
so the staking and token endpoints only emit active balances. -/
theorem asset_balance_constructors_active :
    (∀ (asset_id : AssetId) (v : Nat), (AssetBalance.new asset_id v).is_active = true) ∧
    (∀ asset_id, (AssetBalance.new_zero_balance asset_id).is_active = true) ∧
    (∀ asset_id b, (AssetBalance.new_balance asset_id b).is_active = true) ∧
    (∀ asset_id s p r, (AssetBalance.new_staking asset_id s p r).is_active = true) ∧
    (∀ asset_id s p r m,
      (AssetBalance.new_staking_with_metadata asset_id s p r m).is_active = true) ∧
    (∀ asset_id b a, (AssetBalance.new_with_active asset_id b a).is_active = a) ∧
    (∀ state ab, get_ethereum_staking_balance state = some ab → ab.is_active = true) ∧
    (∀ token_ids results, ∀ ab ∈ solana_get_balance_tokens token_ids results,
      ab.is_active = true) := by
  refine ⟨fun _ _ => rfl, fun _ => rfl, fun _ _ => rfl, fun _ _ _ _ => rfl,
    fun _ _ _ _ _ => rfl, fun _ _ _ => rfl, ?_, ?_⟩
  · intro state ab h
    rw [get_ethereum_staking_balance] at h
    cases h
    rfl
  · intro token_ids results ab hab
    rw [solana_get_balance_tokens] at hab
    rcases List.mem_flatMap.mp hab with ⟨p, _, hp⟩
    rw [map_token_accounts] at hp
    rcases List.mem_singleton.mp hp with rfl
    rfl

/-- Claim C10: for every fetched Everstake account state, the Ethereum
staking-balance operation returns `Some` — never `None` — and when the
derived delegation list is empty the returned balance has `staked`, `pending`
and `rewards` all zero. -/
theorem ethereum_staking_balance_never_none (state : EverstakeAccountState) :
    ∃ ab, get_ethereum_staking_balance state = some ab ∧
      (get_ethereum_delegations state = [] →
        ab.balance.staked = 0 ∧ ab.balance.pending = 0 ∧ ab.balance.rewards = 0) := by
  refine ⟨_, rfl, fun h => ?_⟩
  simp [fold_delegations, stake_fold, h, AssetBalance.new_balance,
    Balance.stake_balance, Balance.stake_balance_with_metadata]

/-! ## Lemmas: the staking fold -/

theorem stake_fold_acc (ds : List DelegationBase) :
    ∀ acc : Nat × Nat × Nat,
      ds.foldl
        (fun acc d =>
          match d.state with
          | .Active => (acc.1 + d.balance, acc.2.1 + d.rewards, acc.2.2)
          | .Activating | .Deactivating | .AwaitingWithdrawal =>
            (acc.1, acc.2.1, acc.2.2 + d.balance)
          | _ => acc)
        acc
      = (acc.1 + ((ds.filter fun d => d.state == DelegationState.Active).map
            DelegationBase.balance).sum,
         acc.2.1 + ((ds.filter fun d => d.state == DelegationState.Active).map
            DelegationBase.rewards).sum,
         acc.2.2 + ((ds.filter fun d => d.state == DelegationState.Activating
              || d.state == DelegationState.Deactivating
              || d.state == DelegationState.AwaitingWithdrawal).map
            DelegationBase.balance).sum) := by
  induction ds with
  | nil => intro acc; simp
  | cons d ds ih =>
    intro acc
    rw [List.foldl_cons]
    cases hs : d.state <;>
      simp [List.filter_cons, hs, ih, Prod.mk.injEq] <;>
      omega

theorem withdraw_delegations_states (wr : List EverstakeWithdrawEntry) :
    ∀ d ∈ map_withdraw_request_to_delegations wr,
      d.state = .AwaitingWithdrawal ∨ d.state = .Deactivating := by
  intro d hd
  rw [map_withdraw_request_to_delegations] at hd
  rcases List.mem_map.mp hd with ⟨e, _, rfl⟩
  by_cases h : e.current_epoch ≤ e.unlock_epoch
  · left; simp [h]
  · right; simp [h]

/-- Claim C1: the Everstake delegation list contains one `Active` delegation
with balance `deposited_balance` and rewards `restaked_reward` exactly when
`deposited_balance > 0`, one `Activating` delegation with balance
`pending_balance + pending_deposited_balance` exactly when that sum is
positive; and the `Balance` folded from any delegation list has
`staked`/`rewards` summed over `Active` delegations, `pending` summed over
`Activating`/`Deactivating`/`AwaitingWithdrawal` ones, and every other slot
zero. -/
theorem ethereum_staking_derivation_and_fold (state : EverstakeAccountState)
    (ds : List DelegationBase) :
    ((get_ethereum_delegations state).filter
        (fun d => d.state == DelegationState.Active)
      = if 0 < state.deposited_balance then
          [⟨state.deposited_balance, state.restaked_reward, .Active⟩] else []) ∧
    ((get_ethereum_delegations state).filter
        (fun d => d.state == DelegationState.Activating)
      = if 0 < state.pending_balance + state.pending_deposited_balance then
          [⟨state.pending_balance + state.pending_deposited_balance, 0, .Activating⟩]
        else []) ∧
    (fold_delegations ds).staked
      = ((ds.filter fun d => d.state == DelegationState.Active).map
          DelegationBase.balance).sum ∧
    (fold_delegations ds).rewards
      = ((ds.filter fun d => d.state == DelegationState.Active).map
          DelegationBase.rewards).sum ∧
    (fold_delegations ds).pending
      = ((ds.filter fun d => d.state == DelegationState.Activating
            || d.state == DelegationState.Deactivating
            || d.state == DelegationState.AwaitingWithdrawal).map
          DelegationBase.balance).sum ∧
    (fold_delegations ds).available = 0 ∧ (fold_delegations ds).frozen = 0 ∧
    (fold_delegations ds).locked = 0 ∧ (fold_delegations ds).reserved = 0 ∧
    (fold_delegations ds).withdrawable = 0 := by
  have hwActive : ∀ d ∈ map_withdraw_request_to_delegations state.withdraw_request,
      ¬ (d.state == DelegationState.Active) = true := by
    intro d hd
    rcases withdraw_delegations_states state.withdraw_request d hd with h | h <;>
      simp [h]
  have hwActivating : ∀ d ∈ map_withdraw_request_to_delegations state.withdraw_request,
      ¬ (d.state == DelegationState.Activating) = true := by
    intro d hd
    rcases withdraw_delegations_states state.withdraw_request d hd with h | h <;>
      simp [h]
  have hfold := stake_fold_acc ds (0, 0, 0)
  refine ⟨?_, ?_, ?_, ?_, ?_, rfl, rfl, rfl, rfl, rfl⟩
  · rw [get_ethereum_delegations, List.filter_append, List.filter_append,
      List.filter_eq_nil_iff.mpr hwActive]
    by_cases h1 : 0 < state.deposited_balance <;>
      by_cases h2 : 0 < state.pending_balance + state.pending_deposited_balance <;>
      simp [h1, h2, map_balance_to_delegation]
  · rw [get_ethereum_delegations, List.filter_append, List.filter_append,
      List.filter_eq_nil_iff.mpr hwActivating]
    by_cases h1 : 0 < state.deposited_balance <;>
      by_cases h2 : 0 < state.pending_balance + state.pending_deposited_balance <;>
      simp [h1, h2, map_balance_to_delegation]
  · show (fold_delegations ds).staked = _
    rw [fold_delegations, stake_fold, hfold]
    simp [Balance.stake_balance, Balance.stake_balance_with_metadata]
  · show (fold_delegations ds).rewards = _
    rw [fold_delegations, stake_fold, hfold]
    simp [Balance.stake_balance, Balance.stake_balance_with_metadata]
  · show (fold_delegations ds).pending = _
    rw [fold_delegations, stake_fold, hfold]
    simp [Balance.stake_balance, Balance.stake_balance_with_metadata]

/-! ## Lemmas: batched token balances -/

theorem extract_map_value {T : Type} (resps : List (JsonRpcResponse T)) :
    extract (resps.map JsonRpcResult.Value) = resps.map JsonRpcResponse.result := by
  induction resps with
  | nil => rfl
  | cons r rs ih =>
    simp only [List.map_cons, extract, List.filterMap_cons] at ih ⊢
    rw [ih]

/-- Claim C2 (counterexample): with two requested tokens where the batched
call answers an error for the first and a 7-unit account list for the second,
`extract` drops the error and the zip pairs the second token's accounts with
the FIRST token id — the output has one element, labelled "A" but holding
"B"'s balance, so the i-th output is not the balance of the i-th token. -/
theorem solana_balance_tokens_misaligned_on_batch_error :
    solana_get_balance_tokens ["A", "B"]
      [JsonRpcResult.Error ⟨some 1, ⟨-32000, "error"⟩⟩,
       JsonRpcResult.Value ⟨some 2, ⟨[⟨7⟩]⟩⟩]
      = [AssetBalance.new ⟨Chain.Solana, some "A"⟩ 7] ∧
    (solana_get_balance_tokens ["A", "B"]
      [JsonRpcResult.Error ⟨some 1, ⟨-32000, "error"⟩⟩,
       JsonRpcResult.Value ⟨some 2, ⟨[⟨7⟩]⟩⟩]).length ≠ ["A", "B"].length := by
  exact ⟨rfl, by decide⟩

/-- Claim C2 (amended): when every element of the batched call succeeds, the
output corresponds positionally to the input token ids — the i-th output is
one `AssetBalance` for the i-th requested mint holding the sum of its account
amounts. -/
theorem solana_balance_tokens_positional_when_all_succeed
    (pairs : List (JsonRpcResponse (ValueResult (List TokenAccountInfo)) × String)) :
    solana_get_balance_tokens (pairs.map Prod.snd)
      (pairs.map fun p => JsonRpcResult.Value p.1)
    = pairs.map fun p =>
        AssetBalance.new ⟨Chain.Solana, some p.2⟩
          ((p.1.result.value.map TokenAccountInfo.amount).sum) := by
  rw [solana_get_balance_tokens,
    show (pairs.map fun p => JsonRpcResult.Value p.1)
        = (pairs.map Prod.fst).map JsonRpcResult.Value by simp,
    extract_map_value,
    show (pairs.map Prod.fst).map JsonRpcResponse.result
        = pairs.map fun p => p.1.result by simp,
    List.zip_map']
  induction pairs with
  | nil => rfl
  | cons p ps ih =>
    simp only [List.map_cons, List.flatMap_cons, map_token_accounts] at ih ⊢
    rw [ih]
    rfl

/-! ## Registry dispatch and facade status -/

/-- Claim C3 (counterexample): a registry configured with an Ethereum provider
only, asked for a Solana balance, produces the registry's not-found error,
and the facade — whose only conversion for boxed errors is
`From<Box<dyn Error>> → InternalServerError` — reports HTTP 500, not 404. -/
theorem unconfigured_chain_gets_500_not_404 :
    get_provider [⟨Chain.Ethereum, 0⟩] Chain.Solana
      = .error "Provider for chain solana not found" ∧
    facade_balance_error_status [⟨Chain.Ethereum, 0⟩] Chain.Solana = some 500 ∧
    facade_balance_error_status [⟨Chain.Ethereum, 0⟩] Chain.Solana ≠ some 404 := by
  exact ⟨rfl, rfl, by decide⟩

/-- Claim C3 (amended): `get(chain)` returns the (first) provider whose
`chain()` equals the requested chain when one is configured and the
provider-not-configured error otherwise; when a balance request hits an
unconfigured chain the HTTP facade reports that error with status 500 (its
boxed-error conversion maps every error to `InternalServerError`), and with
no error status at all when the chain is configured. -/
theorem registry_get_and_facade_error_status (providers : List ChainProvider)
    (chain : Chain) :
    (∀ p, get_provider providers chain = .ok p → p.chain = chain ∧ p ∈ providers) ∧
    ((∃ p ∈ providers, p.chain = chain) →
      ∃ p, get_provider providers chain = .ok p ∧ p.chain = chain ∧ p ∈ providers) ∧
    ((∀ p ∈ providers, p.chain ≠ chain) →
      get_provider providers chain
        = .error ("Provider for chain " ++ chain.as_ref ++ " not found") ∧
      facade_balance_error_status providers chain = some 500) ∧
    (∀ p, get_provider providers chain = .ok p →
      facade_balance_error_status providers chain = none) := by
  have hok : ∀ p, get_provider providers chain = .ok p →
      p.chain = chain ∧ p ∈ providers := by
    intro p hp
    rw [get_provider] at hp
    cases hfind : providers.find? fun q => q.chain = chain with
    | none => rw [hfind] at hp; cases hp
    | some q =>
      rw [hfind] at hp
      cases hp
      have hpred := List.find?_some hfind
      exact ⟨by simpa using hpred, List.mem_of_find?_eq_some hfind⟩
  refine ⟨hok, ?_, ?_, ?_⟩
  · rintro ⟨p, hmem, hchain⟩
    have : (providers.find? fun q => q.chain = chain).isSome :=
      List.find?_isSome.mpr ⟨p, hmem, by simpa using hchain⟩
    cases hfind : providers.find? fun q => q.chain = chain with
    | none => rw [hfind] at this; cases this
    | some q =>
      have hq : get_provider providers chain = .ok q := by
        rw [get_provider, hfind]
      exact ⟨q, hq, hok q hq⟩
  · intro hnone
    have hfind : (providers.find? fun q => q.chain = chain) = none :=
      List.find?_eq_none.mpr fun q hq => by simpa using hnone q hq
    constructor
    · rw [get_provider, hfind]
    · rw [facade_balance_error_status, get_provider, hfind]
      rfl
  · intro p hp
    rw [facade_balance_error_status, hp]

/-! ## Lemmas: the retry loop -/

theorem backoff_delay_eq (n : Nat) : backoff_delay n = min (2 ^ n) 1800 := by
  rw [backoff_delay, min_assoc]
  norm_num

theorem retryGo_calls_pos {T : Type} (op : Nat → Except String T) (pred : String → Bool) :
    ∀ r a, 1 ≤ (retryGo op pred r a).calls := by
  intro r a
  cases r with
  | zero => cases hop : op a <;> simp [retryGo, hop]
  | succ r' =>
    cases hop : op a with
    | ok v => simp [retryGo, hop]
    | error e => by_cases hp : pred e <;> simp [retryGo, hop, hp]

theorem retryGo_calls_le {T : Type} (op : Nat → Except String T) (pred : String → Bool) :
    ∀ r a, (retryGo op pred r a).calls ≤ r + 1 := by
  intro r
  induction r with
  | zero => intro a; cases hop : op a <;> simp [retryGo, hop]
  | succ r' ih =>
    intro a
    cases hop : op a with
    | ok v => simp [retryGo, hop]
    | error e =>
      by_cases hp : pred e
      · have := ih (a + 1)
        simp only [retryGo, hop, hp, if_true]
        omega
      · simp [retryGo, hop, hp]

theorem retryGo_delays {T : Type} (op : Nat → Except String T) (pred : String → Bool) :
    ∀ r a, (retryGo op pred r a).delays
      = (List.range ((retryGo op pred r a).calls - 1)).map
          fun i => backoff_delay (a + 1 + i) := by
  intro r
  induction r with
  | zero => intro a; cases hop : op a <;> simp [retryGo, hop]
  | succ r' ih =>
    intro a
    cases hop : op a with
    | ok v => simp [retryGo, hop]
    | error e =>
      by_cases hp : pred e
      · have hpos := retryGo_calls_pos op pred r' (a + 1)
        simp only [retryGo, hop, hp, if_true]
        rw [ih (a + 1), Nat.add_sub_cancel,
          show (retryGo op pred r' (a + 1)).calls
              = ((retryGo op pred r' (a + 1)).calls - 1) + 1 by omega,
          List.range_succ_eq_map, List.map_cons, List.map_map]
        refine congrArg₂ List.cons (by simp) (List.map_congr_left fun i _ => ?_)
        show backoff_delay (a + 1 + 1 + i) = backoff_delay (a + 1 + (i + 1))
        congr 1
        omega
      · simp [retryGo, hop, hp]

theorem retryGo_ok {T : Type} (op : Nat → Except String T) (pred : String → Bool) :
    ∀ r a (v : T), (retryGo op pred r a).result = .ok v →
      op (a + ((retryGo op pred r a).calls - 1)) = .ok v ∧
      ∀ i < (retryGo op pred r a).calls - 1,
        ∃ e, op (a + i) = .error e ∧ pred e = true := by
  intro r
  induction r with
  | zero =>
    intro a v h
    cases hop : op a with
    | ok w =>
      simp only [retryGo, hop] at h ⊢
      cases h
      exact ⟨by simpa using hop, by omega⟩
    | error e => simp [retryGo, hop] at h
  | succ r' ih =>
    intro a v h
    cases hop : op a with
    | ok w =>
      simp only [retryGo, hop] at h ⊢
      cases h
      exact ⟨by simpa using hop, by omega⟩
    | error e =>
      by_cases hp : pred e
      · have hpos := retryGo_calls_pos op pred r' (a + 1)
        simp only [retryGo, hop, hp, if_true] at h ⊢
        obtain ⟨h1, h2⟩ := ih (a + 1) v h
        refine ⟨?_, ?_⟩
        · rw [show a + ((retryGo op pred r' (a + 1)).calls + 1 - 1)
              = (a + 1) + ((retryGo op pred r' (a + 1)).calls - 1) by omega]
          exact h1
        · intro i hi
          cases i with
          | zero => exact ⟨e, by simpa using hop, hp⟩
          | succ j =>
            obtain ⟨e', he', hp'⟩ := h2 j (by omega)
            exact ⟨e', by rw [show a + (j + 1) = (a + 1) + j by omega]; exact he', hp'⟩
      · simp [retryGo, hop, hp] at h

theorem retryGo_nonretryable {T : Type} (op : Nat → Except String T)
    (pred : String → Bool) :
    ∀ r a e, op a = .error e → pred e = false →
      retryGo op pred r a = ⟨.error e, 1, []⟩ := by
  intro r a e hop hp
  cases r with
  | zero => simp [retryGo, hop]
  | succ r' => simp [retryGo, hop, hp]

theorem retryGo_exhaust {T : Type} (op : Nat → Except String T) (pred : String → Bool) :
    ∀ r a, (∀ i, i ≤ r → ∃ e, op (a + i) = .error e ∧ pred e = true) →
      ∃ e, op (a + r) = .error e ∧ (retryGo op pred r a).result = .error e ∧
        (retryGo op pred r a).calls = r + 1 := by
  intro r
  induction r with
  | zero =>
    intro a hall
    obtain ⟨e, he, hp⟩ := hall 0 le_rfl
    have he' : op a = .error e := by simpa using he
    exact ⟨e, by simpa using he, by simp [retryGo, he'], by simp [retryGo, he']⟩
  | succ r' ih =>
    intro a hall
    obtain ⟨e0, he0, hp0⟩ := hall 0 (by omega)
    have he0' : op a = .error e0 := by simpa using he0
    obtain ⟨e, he, hres, hcalls⟩ := ih (a + 1) fun i hi => by
      obtain ⟨e, he, hp⟩ := hall (i + 1) (by omega)
      exact ⟨e, by rw [show (a + 1) + i = a + (i + 1) by omega]; exact he, hp⟩
    refine ⟨e, by rw [show a + (r' + 1) = (a + 1) + r' by omega]; exact he, ?_, ?_⟩ <;>
      simp [retryGo, he0', hp0, hres, hcalls]

/-- Claim C5: the retry helper invokes the operation at most `max_retries + 1`
times, returns the first successful result immediately (every earlier call
erred retryably), returns a non-retryable error (per the supplied or default
predicate) after a single attempt, returns the last error on exhaustion after
exactly `max_retries + 1` calls, and sleeps `min(2^n, 1800)` seconds before
the n-th retry. -/
theorem retry_helper_contract (T : Type) (op : Nat → Except String T) (m : Nat)
    (p? : Option (String → Bool)) :
    (retry op m p?).calls ≤ m + 1 ∧
    (∀ v, (retry op m p?).result = .ok v →
      op ((retry op m p?).calls - 1) = .ok v ∧
      ∀ i < (retry op m p?).calls - 1,
        ∃ e, op i = .error e ∧ (p?.getD default_should_retry) e = true) ∧
    (∀ e, op 0 = .error e → (p?.getD default_should_retry) e = false →
      (retry op m p?).result = .error e ∧ (retry op m p?).calls = 1) ∧
    ((∀ i, i ≤ m → ∃ e, op i = .error e ∧ (p?.getD default_should_retry) e = true) →
      ∃ e, op m = .error e ∧ (retry op m p?).result = .error e ∧
        (retry op m p?).calls = m + 1) ∧
    (retry op m p?).delays
      = (List.range ((retry op m p?).calls - 1)).map fun i => min (2 ^ (i + 1)) 1800 := by
  refine ⟨retryGo_calls_le op _ m 0, fun v h => ?_, fun e hop hp => ?_, fun hall => ?_, ?_⟩
  · obtain ⟨h1, h2⟩ := retryGo_ok op _ m 0 v h
    exact ⟨by simpa using h1, fun i hi => by simpa using h2 i hi⟩
  · rw [retry, retryGo_nonretryable op _ m 0 e hop hp]
    exact ⟨rfl, rfl⟩
  · obtain ⟨e, he, hres, hcalls⟩ :=
      retryGo_exhaust op _ m 0 fun i hi => by simpa using hall i hi
    exact ⟨e, by simpa using he, hres, hcalls⟩
  · rw [retry, retryGo_delays op _ m 0]
    exact List.map_congr_left fun i _ => by rw [show 0 + 1 + i = i + 1 by omega,
      backoff_delay_eq]

/-- Claim C6: under a `text/plain`, `application/x-www-form-urlencoded` or
`application/x-binary` content type, a body that does not serialize to a JSON
string — or, for `application/x-binary`, a string that is not valid hex —
makes both `ReqwestClient::post` and `RpcClient::post` fail with a
`Serialization` error before any request is built or sent; a valid hex string
under `application/x-binary` is sent with exactly the hex-decoded bytes as
body. -/
theorem post_body_content_type_contract (headers : List (String × String))
    (body : Json) (base_url path : String) :
    ((reqwestEffectiveContentType (some headers) = some .TextPlain ∨
      reqwestEffectiveContentType (some headers) = some .ApplicationFormUrlEncoded ∨
      reqwestEffectiveContentType (some headers) = some .ApplicationXBinary) →
      body.asString = none →
      ∃ msg, reqwest_post_body (some headers) body = .error (.Serialization msg)) ∧
    (reqwestEffectiveContentType (some headers) = some .ApplicationXBinary →
      ∀ s, body = .str s → hex_decode s = none →
        ∃ msg, reqwest_post_body (some headers) body = .error (.Serialization msg)) ∧
    (reqwestEffectiveContentType (some headers) = some .ApplicationXBinary →
      ∀ s bytes, body = .str s → hex_decode s = some bytes →
        reqwest_post_body (some headers) body = .ok bytes) ∧
    ((rpcEffectiveContentType (some headers) = some .TextPlain ∨
      rpcEffectiveContentType (some headers) = some .ApplicationFormUrlEncoded ∨
      rpcEffectiveContentType (some headers) = some .ApplicationXBinary) →
      body.asString = none →
      ∃ msg, rpc_post_target base_url path (some headers) body
        = .error (.Serialization msg)) ∧
    (rpcEffectiveContentType (some headers) = some .ApplicationXBinary →
      ∀ s, body = .str s → hex_decode s = none →
        ∃ msg, rpc_post_target base_url path (some headers) body
          = .error (.Serialization msg)) ∧
    (rpcEffectiveContentType (some headers) = some .ApplicationXBinary →
      ∀ s bytes, body = .str s → hex_decode s = some bytes →
        ∃ t, rpc_post_target base_url path (some headers) body = .ok t ∧
          t.body = some bytes) := by
  refine ⟨?_, ?_, ?_, ?_, ?_, ?_⟩
  · intro hct hbody
    rcases hct with h | h | h <;>
      · simp only [reqwest_post_body, h, hbody]
        exact ⟨_, rfl⟩
  · intro hct s hs hhex
    subst hs
    simp only [reqwest_post_body, hct, Json.asString, hhex]
    exact ⟨"Failed to decode hex string", by simp⟩
  · intro hct s bytes hs hhex
    subst hs
    simp only [reqwest_post_body, hct, Json.asString]
    simp [hhex]
  · intro hct hbody
    rcases hct with h | h | h <;>
      · simp only [rpc_post_target, h, hbody]
        exact ⟨_, rfl⟩
  · intro hct s hs hhex
    subst hs
    simp only [rpc_post_target, hct, Json.asString, hhex]
    exact ⟨_, rfl⟩
  · intro hct s bytes hs hhex
    subst hs
    simp only [rpc_post_target, hct, Json.asString, hhex]
    exact ⟨_, rfl, rfl⟩

/-- Claim C7 (counterexample): both transports trim every trailing `'/'` of
the base URL — `trim_end_matches('/')` — so a base ending in two slashes
loses both, not just one as claimed. -/
theorem build_url_two_trailing_slashes :
    rpc_build_url "https://node.example//" "/path" = "https://node.example/path" ∧
    reqwest_build_url "https://node.example//" "/path" = "https://node.example/path" ∧
    rpc_build_url "https://node.example//" "/path"
      ≠ "https://node.example/" ++ "/path" := by
  exact ⟨rfl, rfl, by decide⟩

/-- Claim C7 (amended): the URL either transport builds is the base URL with
ALL trailing `'/'` characters removed, concatenated with the path: a base not
ending in `'/'` is kept whole, and a base ending in `'/'` builds the same URL
as the base with that last character dropped. -/
theorem build_url_trims_all_trailing_slashes (base path : String) :
    reqwest_build_url base path = rpc_build_url base path ∧
    (base.data.getLast? ≠ some '/' → rpc_build_url base path = base ++ path) ∧
    (base.data.getLast? = some '/' →
      rpc_build_url base path = rpc_build_url ⟨base.data.dropLast⟩ path) := by
  refine ⟨rfl, ?_, ?_⟩
  · intro h
    suffices hts : trimEndSlashes base = base by
      rw [rpc_build_url, hts]
    unfold trimEndSlashes
    rcases hrev : base.data.reverse with _ | ⟨c, t⟩
    · have hnil : base.data = [] := by
        simpa using congrArg List.reverse hrev
      show String.mk [] = base
      rw [show ([] : List Char) = base.data from hnil.symm]
    · have hc : ¬ c = '/' := by
        rw [← List.head?_reverse, hrev] at h
        simpa using h
      rw [List.dropWhile_cons, if_neg (by simpa using hc)]
      show String.mk (c :: t).reverse = base
      rw [show (c :: t).reverse = base.data by rw [← hrev, List.reverse_reverse]]
  · intro h
    rcases hrev : base.data.reverse with _ | ⟨c, t⟩
    · rw [← List.head?_reverse, hrev] at h
      cases h
    · have hc : c = '/' := by
        rw [← List.head?_reverse, hrev] at h
        simpa using h
      subst hc
      have hbase : base.data = t.reverse ++ ['/'] := by
        rw [← List.reverse_reverse base.data, hrev, List.reverse_cons]
      have hdl : (base.data.dropLast).reverse = t := by
        rw [hbase, List.dropLast_concat, List.reverse_reverse]
      have hts : trimEndSlashes base = trimEndSlashes ⟨base.data.dropLast⟩ := by
        unfold trimEndSlashes
        rw [hrev, List.dropWhile_cons, if_pos (by decide)]
        show String.mk _ = String.mk _
        rw [show (String.mk base.data.dropLast).data = base.data.dropLast from rfl, hdl]
      rw [rpc_build_url, rpc_build_url, hts]

end HookWallet
